import Mathlib

/-!
Verification development for the fedimint client-side custody engine.

Source-embedded definitions follow
`src/modules/fedimint-mint-client/src/client_db.rs` (database key layout,
`migrate_to_v1`) and `src/fedimint-client-wasm/src/lib.rs` (`open_inner`,
`rpc`, `rpc_inner`).  Ledger, allocator and recovery operations whose
implementations live outside those files are modelled from the
specification; their doc comments start with "Modelled from the spec".
Machine integers (amounts, indices, nonces) are modelled as `Nat`;
overflow plays no role in any property below.
-/

namespace Fedimint

/-- Database key tag per record kind, from the `DbKeyPrefix` enum in
`client_db.rs` (`Note = 0x20`, `NextECashNoteIndex = 0x2a`,
`CancelledOOBSpend = 0x2b`, `RecoveryState = 0x2c`,
`RecoveryFinalized = 0x2d`, `ReusedNoteIndices = 0x2e`). -/
inductive DbKeyPrefix where
  | Note
  | NextECashNoteIndex
  | CancelledOOBSpend
  | RecoveryState
  | RecoveryFinalized
  | ReusedNoteIndices
  deriving DecidableEq, Fintype

/-- The `#[repr(u8)]` discriminant of each `DbKeyPrefix` variant. -/
def DbKeyPrefix.tag : DbKeyPrefix → Nat
  | .Note => 0x20
  | .NextECashNoteIndex => 0x2a
  | .CancelledOOBSpend => 0x2b
  | .RecoveryState => 0x2c
  | .RecoveryFinalized => 0x2d
  | .ReusedNoteIndices => 0x2e

/-- An encoded database key: the record kind's tag byte followed by the
encoded key payload, as produced by `impl_db_record!`. -/
def encodedKey (k : DbKeyPrefix) (payload : List Nat) : List Nat :=
  k.tag :: payload

/-- A raw prefix scan over a set of encoded keys: keep exactly the keys
whose leading byte is the requested record-kind tag. -/
def scanByTag (tag : Nat) (keys : List (List Nat)) : List (List Nat) :=
  keys.filter (fun key => key.head? == some tag)

/-- `NoteKey` from `client_db.rs`: a ledger entry is keyed by the pair of
amount tier and note nonce. -/
structure NoteKey where
  amount : Nat
  nonce : Nat
  deriving DecidableEq

/-- Modelled from the spec: `record_note` (implementation not under
`src/`, only the `NoteKey` record declaration is).  Idempotent insert
into the ledger keyed by (amount, nonce); inserting an already-present
pair leaves the ledger unchanged. -/
def applyRecord (ledger : List (NoteKey × Nat)) (kv : NoteKey × Nat) :
    List (NoteKey × Nat) :=
  if ledger.any (fun e => e.1 == kv.1) then ledger else ledger ++ [kv]

/-- Modelled from the spec: `record_note` returning its result; it always
returns success, also when the (amount, nonce) pair is already present. -/
def recordNote (k : NoteKey) (v : Nat) (ledger : List (NoteKey × Nat)) :
    Except String (List (NoteKey × Nat)) :=
  Except.ok (applyRecord ledger (k, v))

/-- Run a sequence of `record_note` calls starting from the empty ledger. -/
def recordAll (notes : List (NoteKey × Nat)) : List (NoteKey × Nat) :=
  notes.foldl applyRecord []

/-- Number of ledger entries stored under a given (amount, nonce) key. -/
def countKey (k : NoteKey) (ledger : List (NoteKey × Nat)) : Nat :=
  ledger.countP (fun e => e.1 == k)

/-- Lookup of a per-denomination counter in an association list
(`NextECashNoteIndexKey` records); absent means `0`. -/
def getCtr (ctr : List (Nat × Nat)) (d : Nat) : Nat :=
  match ctr.find? (fun e => e.1 == d) with
  | some e => e.2
  | none => 0

/-- Update of a per-denomination counter in an association list. -/
def setCtr : List (Nat × Nat) → Nat → Nat → List (Nat × Nat)
  | [], d, v => [(d, v)]
  | e :: rest, d, v =>
      if e.1 == d then (d, v) :: rest else e :: setCtr rest d v

/-- Wallet state shared by normal issuance and recovery: the
per-denomination `NextECashNoteIndex` counters and the note ledger. -/
structure WalletSt where
  counters : List (Nat × Nat)
  ledger : List (NoteKey × Nat)
  deriving DecidableEq

/-- The state of a wallet with no prior storage. -/
def emptyWallet : WalletSt := ⟨[], []⟩

/-- One event of normal operation as seen by the federation history log:
either this client issues a note at some denomination, or another client
contributes an entry with some foreign nonce. -/
inductive IssuanceOp where
  | clientIssue (d : Nat)
  | foreign (d : Nat) (n : Nat)
  deriving DecidableEq

/-- Modelled from the spec: direct issuance (implementation not under
`src/`).  Each `clientIssue d` reserves the next index `i` for
denomination `d`, derives the nonce with the pure derivation function,
records the note and advances the counter to `i + 1`; foreign events only
append to the history.  Returns the final wallet state and the history
log the federation records for this trace. -/
def runDirect (derive : Nat → Nat → Nat → Nat) (s : Nat) (st : WalletSt) :
    List IssuanceOp → WalletSt × List (Nat × Nat)
  | [] => (st, [])
  | IssuanceOp.clientIssue d :: rest =>
      let i := getCtr st.counters d
      let st2 : WalletSt :=
        ⟨setCtr st.counters d (i + 1),
         applyRecord st.ledger (⟨d, derive s d i⟩, 0)⟩
      let r := runDirect derive s st2 rest
      (r.1, (d, derive s d i) :: r.2)
  | IssuanceOp.foreign d n :: rest =>
      let r := runDirect derive s st rest
      (r.1, (d, n) :: r.2)

/-- Modelled from the spec: one Recovery Engine step (implementation not
under `src/`, only the `RecoveryStateKey` record declaration is).  A
history entry `(d, n)` matches when `n` is the nonce derived at the next
expected index for `d`; on a match the note is recorded via the
idempotent insert and the counter advanced one past the recovered
index, otherwise the entry belongs to another client and is skipped. -/
def recoverStep (derive : Nat → Nat → Nat → Nat) (s : Nat) (st : WalletSt)
    (e : Nat × Nat) : WalletSt :=
  if e.2 = derive s e.1 (getCtr st.counters e.1) then
    ⟨setCtr st.counters e.1 (getCtr st.counters e.1 + 1),
     applyRecord st.ledger (⟨e.1, e.2⟩, 0)⟩
  else st

/-- Modelled from the spec: run the Recovery Engine over the whole
history log; processing the final entry is finalization. -/
def runRecovery (derive : Nat → Nat → Nat → Nat) (s : Nat) (st : WalletSt) :
    List (Nat × Nat) → WalletSt
  | [] => st
  | e :: rest => runRecovery derive s (recoverStep derive s st e) rest

/-- All ledger entries of one denomination. -/
def notesForDenom (d : Nat) (ledger : List (NoteKey × Nat)) :
    List (NoteKey × Nat) :=
  ledger.filter (fun e => e.1.amount == d)

/-- State of the out-of-band cancellation subsystem: the set of cancelled
operation ids (`CancelledOOBSpendKey` records) and the log of change
notifications delivered to a subscriber. -/
structure OobSt where
  cancelled : List Nat
  notified : List Nat
  deriving DecidableEq

/-- The cancellation state before any marker is written. -/
def emptyOob : OobSt := ⟨[], []⟩

/-- Modelled from the spec: `mark_oob_cancelled` (implementation not
under `src/`, only the `notify_on_modify` record declaration is).  The
first write of a marker records it and wakes the subscriber once; a
repeated write of an already-present marker changes nothing and wakes
nobody. -/
def markOobCancelled (op : Nat) (st : OobSt) : OobSt :=
  if op ∈ st.cancelled then st else ⟨op :: st.cancelled, op :: st.notified⟩

/-- Run a sequence of `mark_oob_cancelled` calls. -/
def markAll (ops : List Nat) (st : OobSt) : OobSt :=
  ops.foldl (fun s o => markOobCancelled o s) st

/-- Number of occurrences of a value in a list of operation ids. -/
def occCount (x : Nat) (l : List Nat) : Nat :=
  l.countP (fun y => y == x)

/-- One storage-level operation of the Index Allocator and Note Ledger,
as far as the `ReusedNoteIndices` record is concerned. -/
inductive AllocOp where
  | reserveIdx (d : Nat)
  | abandonIdx (d : Nat) (i : Nat)
  | recordN (d : Nat) (n : Nat)
  | removeN (d : Nat) (n : Nat)
  deriving DecidableEq

/-- Allocator-visible storage state: counters, the `ReusedNoteIndices`
list of deliberately skipped (amount, index) pairs, and the ledger. -/
structure AllocSt where
  counters : List (Nat × Nat)
  reused : List (Nat × Nat)
  ledger : List (NoteKey × Nat)
  deriving DecidableEq

/-- Modelled from the spec: the allocator and ledger operations
(implementations not under `src/`, only the `ReusedNoteIndices` record
declaration is).  Reserving advances a counter; abandoning an index
appends a `ReusedNoteIndices` marker; note record and removal touch only
the ledger.  No operation deletes a reused-index marker. -/
def applyAllocOp (st : AllocSt) : AllocOp → AllocSt
  | .reserveIdx d =>
      { st with counters := setCtr st.counters d (getCtr st.counters d + 1) }
  | .abandonIdx d i => { st with reused := st.reused ++ [(d, i)] }
  | .recordN d n => { st with ledger := applyRecord st.ledger (⟨d, n⟩, 0) }
  | .removeN d n =>
      { st with ledger := st.ledger.filter (fun e => !(e.1 == (⟨d, n⟩ : NoteKey))) }

/-- Run a sequence of allocator/ledger operations. -/
def applyAllocOps (st : AllocSt) (ops : List AllocOp) : AllocSt :=
  ops.foldl applyAllocOp st

/-- The new list extends the old one at the end only. -/
def appendOnly (old new : List (Nat × Nat)) : Prop :=
  ∃ tail, new = old ++ tail

/-- The mint module's slice of the client database, one field per record
kind declared in `client_db.rs`.  `recoveryState` holds the single
`RecoveryStateKey` value, whose type is the pair
`(MintRecoveryState, RecoveryFromHistoryCommon)` — the module-local
recovery state together with the common history cursor. -/
structure MintStore where
  recoveryState : Option (Nat × Nat)
  recoveryFinalized : Option Bool
  notes : List (NoteKey × Nat)
  nextIndex : List (Nat × Nat)
  deriving DecidableEq

/-- A freshly created, never-used store. -/
def initStore : MintStore := ⟨none, none, [], []⟩

/-- Storage-level writes to the mint store.  A recovery checkpoint write
necessarily carries both the module-local cursor and the common cursor,
because `RecoveryStateKey` maps to the pair value. -/
inductive StoreOp where
  | setRecoveryState (m : Nat) (c : Nat)
  | removeRecoveryState
  | setRecoveryFinalized (b : Bool)
  | putNote (d : Nat) (n : Nat) (v : Nat)
  | removeNote (d : Nat) (n : Nat)
  | putNextIndex (d : Nat) (v : Nat)
  deriving DecidableEq

/-- Apply one storage write to the mint store. -/
def applyStoreOp (st : MintStore) : StoreOp → MintStore
  | .setRecoveryState m c => { st with recoveryState := some (m, c) }
  | .removeRecoveryState => { st with recoveryState := none }
  | .setRecoveryFinalized b => { st with recoveryFinalized := some b }
  | .putNote d n v => { st with notes := applyRecord st.notes (⟨d, n⟩, v) }
  | .removeNote d n =>
      { st with notes := st.notes.filter (fun e => !(e.1 == (⟨d, n⟩ : NoteKey))) }
  | .putNextIndex d v => { st with nextIndex := setCtr st.nextIndex d v }

/-- Apply a sequence of storage writes. -/
def applyStoreOps (st : MintStore) (ops : List StoreOp) : MintStore :=
  ops.foldl applyStoreOp st

/-- `migrate_to_v1` from `client_db.rs`: the v0 → v1 migration removes
the `RecoveryStateKey` entry and touches nothing else. -/
def migrateToV1 (st : MintStore) : MintStore :=
  { st with recoveryState := none }

/-- The lightning client module as seen by `rpc_inner`: a handler turning
a method name and parsed payload into a stream of results. -/
structure LnModule where
  handleRpc : String → String → List (Except String String)

/-- The mint client module as seen by `rpc_inner`. -/
structure MintModule where
  handleRpc : String → String → List (Except String String)

/-- The opened client as seen by `rpc_inner` in `lib.rs`: the global rpc
handler and the two `get_first_module` lookups, each of which can fail. -/
structure Client where
  handleGlobalRpc : String → String → List (Except String String)
  getLnModule : Except String LnModule
  getMintModule : Except String MintModule

/-- The `while let … yield item?` loop of `rpc_inner`: forward items
until the first error, which is yielded and ends the stream. -/
def yieldResults : List (Except String String) → List (Except String String)
  | [] => []
  | Except.ok v :: rest => Except.ok v :: yieldResults rest
  | Except.error e :: _ => [Except.error e]

/-- `rpc_inner` from `lib.rs`: parse the payload, dispatch on the module
name ("", "ln", "mint"), and for any other module name yield the single
error "module not found: …".  JSON parsing is an external capability,
passed in as `parseJson`; a parse failure ends the stream with the parse
error before the module name is examined. -/
def rpcInner (parseJson : String → Option String) (client : Client)
    (module : String) (method : String) (payload : String) :
    List (Except String String) :=
  match parseJson payload with
  | none => [Except.error "invalid json payload"]
  | some p =>
      if module = "" then yieldResults (client.handleGlobalRpc method p)
      else if module = "ln" then
        match client.getLnModule with
        | Except.error e => [Except.error e]
        | Except.ok ln => yieldResults (ln.handleRpc method p)
      else if module = "mint" then
        match client.getMintModule with
        | Except.error e => [Except.error e]
        | Except.ok mint => yieldResults (mint.handleRpc method p)
      else [Except.error ("module not found: " ++ module)]

/-- One callback invocation made by `rpc` in `lib.rs`: a `data` item for
an `Ok` stream element, an `error` item for an `Err` one, and the
distinct terminal `end` message. -/
inductive CallbackMsg where
  | data (v : String)
  | error (e : String)
  | endOfStream
  deriving DecidableEq

/-- How `rpc` wraps one stream element for the callback. -/
def wrapItem : Except String String → CallbackMsg
  | Except.ok v => CallbackMsg.data v
  | Except.error e => CallbackMsg.error e

/-- `rpc` from `lib.rs`, run to completion without cancellation: every
stream item is delivered wrapped, then the single end message is sent.
The client handle is untouched, so it stays usable afterwards. -/
def rpc (parseJson : String → Option String) (client : Client)
    (module : String) (method : String) (payload : String) :
    List CallbackMsg × Client :=
  ((rpcInner parseJson client module method payload).map wrapItem
     ++ [CallbackMsg.endOfStream],
   client)

/-- Number of terminal end messages in a callback trace. -/
def countEndMarkers (msgs : List CallbackMsg) : Nat :=
  msgs.countP (fun m => m == CallbackMsg.endOfStream)

/-- `open_inner` from `lib.rs`.  The external capabilities are passed as
arguments: creating the `MemAndIndexedDb` store handle, the
`Client::is_initialized` check, loading the client secret, building the
client builder, and opening the client (root-secret derivation is
infallible and absorbed into `openClient`).  The database is a `Nat`
handle, secrets, builders and clients are opaque `Nat`s. -/
def openInner (newDb : Except String Nat) (isInitialized : Nat → Bool)
    (loadClientSecret : Nat → Except String Nat)
    (clientBuilder : Nat → Except String Nat)
    (openClient : Nat → Nat → Except String Nat) :
    Except String (Option Nat) :=
  match newDb with
  | Except.error e => Except.error e
  | Except.ok db =>
      if ¬ isInitialized db then Except.ok none
      else
        match loadClientSecret db with
        | Except.error e => Except.error e
        | Except.ok secret =>
            match clientBuilder db with
            | Except.error e => Except.error e
            | Except.ok b =>
                match openClient b secret with
                | Except.error e => Except.error e
                | Except.ok c => Except.ok (some c)

/-- A demonstration client whose global handler echoes the payload and
whose module lookups fail. -/
def demoClient : Client :=
  ⟨fun _ p => [Except.ok p], Except.error "ln module missing",
   Except.error "mint module missing"⟩

/-- An even-valued nonce derivation used to instantiate the recovery
refinement on concrete inputs. -/
def demoDerive : Nat → Nat → Nat → Nat :=
  fun s d i => 2 * (s + d + i + 1)

/-- A concrete trace: two client issuances at denomination 1 around a
foreign entry with the odd nonce 1. -/
def demoOps : List IssuanceOp :=
  [IssuanceOp.clientIssue 1, IssuanceOp.foreign 1 1, IssuanceOp.clientIssue 1]

/-- A v0 store holding an in-flight recovery-progress record while the
finalized flag is (incorrectly) also set. -/
def badStore : MintStore := ⟨some (0, 0), some true, [], []⟩

/-- The record-kind tags are pairwise distinct. -/
lemma dbKeyTag_injective : ∀ k1 k2 : DbKeyPrefix, k1.tag = k2.tag → k1 = k2 := by
  decide

/-- C8: every record kind is stored under its own stable, pairwise-distinct
key tag (notes 0x20, next-index counters 0x2a, cancellation markers 0x2b,
recovery state 0x2c, recovery-finalized flag 0x2d, reused-index markers
0x2e); encoded keys of different record kinds never collide, and a prefix
scan for one kind never returns a record of another kind. -/
theorem db_record_kinds_never_collide :
    (DbKeyPrefix.Note.tag = 0x20 ∧
     DbKeyPrefix.NextECashNoteIndex.tag = 0x2a ∧
     DbKeyPrefix.CancelledOOBSpend.tag = 0x2b ∧
     DbKeyPrefix.RecoveryState.tag = 0x2c ∧
     DbKeyPrefix.RecoveryFinalized.tag = 0x2d ∧
     DbKeyPrefix.ReusedNoteIndices.tag = 0x2e) ∧
    (∀ (k1 k2 : DbKeyPrefix) (p1 p2 : List Nat),
        k1 ≠ k2 → encodedKey k1 p1 ≠ encodedKey k2 p2) ∧
    (∀ (k1 k2 : DbKeyPrefix) (p : List Nat) (keys : List (List Nat)),
        k1 ≠ k2 → encodedKey k2 p ∉ scanByTag k1.tag keys) := by
  refine ⟨by decide, ?_, ?_⟩
  · intro k1 k2 p1 p2 hne heq
    apply hne
    apply dbKeyTag_injective
    simpa [encodedKey] using congrArg List.head? heq
  · intro k1 k2 p keys hne hmem
    have h := (List.mem_filter.mp hmem).2
    simp [encodedKey] at h
    exact hne ((dbKeyTag_injective k2 k1 h).symm)

/-- C8 witness: concrete instantiation of the non-collision and scan
separation facts for the note and recovery-state record kinds. -/
theorem db_record_kinds_never_collide_witness :
    encodedKey DbKeyPrefix.Note [7] ≠ encodedKey DbKeyPrefix.RecoveryState [7] ∧
    encodedKey DbKeyPrefix.RecoveryState [] ∉
      scanByTag DbKeyPrefix.Note.tag [encodedKey DbKeyPrefix.RecoveryState []] :=
  ⟨db_record_kinds_never_collide.2.1 DbKeyPrefix.Note DbKeyPrefix.RecoveryState
      [7] [7] (by decide),
   db_record_kinds_never_collide.2.2 DbKeyPrefix.Note DbKeyPrefix.RecoveryState
      [] _ (by decide)⟩

/-- C3 counterexample: the v0 → v1 migration removes the recovery-progress
record but does not unset the recovery-finalized flag, so a store that
holds both a progress record and a set finalized flag keeps the flag set
after migration, contrary to the claim as stated. -/
theorem migrateToV1_claim_counterexample :
    badStore.recoveryState = some (0, 0) ∧
    (migrateToV1 badStore).recoveryState = none ∧
    (migrateToV1 badStore).recoveryFinalized = some true :=
  ⟨rfl, rfl, rfl⟩

/-- C3 (amended): for every store containing an old-format
recovery-progress record whose recovery-finalized flag is unset — which
is every store actually reachable with an in-flight recovery, since the
progress record exists only while recovery is incomplete — applying the
v0 → v1 migration leaves no recovery-progress record and the
recovery-finalized flag still unset, so the next open triggers a fresh
recovery from the start of the history log.  In general the migration
removes the progress record and leaves the finalized flag unchanged. -/
theorem migrateToV1_fresh_recovery (st : MintStore)
    (_hrec : st.recoveryState.isSome = true)
    (hfin : st.recoveryFinalized = none) :
    (migrateToV1 st).recoveryState = none ∧
    (migrateToV1 st).recoveryFinalized = none :=
  ⟨rfl, hfin⟩

/-- C3 witness: the amended migration property at a concrete store with
an in-flight recovery-progress record. -/
theorem migrateToV1_fresh_recovery_witness :
    (migrateToV1 ⟨some (1, 2), none, [], []⟩).recoveryState = none ∧
    (migrateToV1 ⟨some (1, 2), none, [], []⟩).recoveryFinalized = none :=
  migrateToV1_fresh_recovery ⟨some (1, 2), none, [], []⟩ rfl rfl

/-- Any reachable recovery-state value was written whole by a single
checkpoint write carrying both components, or was present initially. -/
lemma applyStoreOps_recoveryState_mem :
    ∀ (ops : List StoreOp) (st : MintStore) (m c : Nat),
      (applyStoreOps st ops).recoveryState = some (m, c) →
      StoreOp.setRecoveryState m c ∈ ops ∨ st.recoveryState = some (m, c) := by
  intro ops
  induction ops with
  | nil => intro st m c h; exact Or.inr h
  | cons op rest ih =>
      intro st m c h
      rcases ih (applyStoreOp st op) m c h with hm | hs
      · exact Or.inl (List.mem_cons_of_mem _ hm)
      · cases op with
        | setRecoveryState m2 c2 =>
            simp only [applyStoreOp, Option.some.injEq, Prod.mk.injEq] at hs
            exact Or.inl (by rw [hs.1, hs.2]; exact List.mem_cons_self _ _)
        | removeRecoveryState => simp [applyStoreOp] at hs
        | setRecoveryFinalized b => exact Or.inr hs
        | putNote d n v => exact Or.inr hs
        | removeNote d n => exact Or.inr hs
        | putNextIndex d v => exact Or.inr hs

/-- C10: the module-local recovery state and the common history cursor
are persisted together as one value under the single recovery-state key:
in every store reachable from the initial store, a present recovery-state
value `(m, c)` was written by one atomic checkpoint write carrying both
components, so no reachable store holds one component updated without
the other. -/
theorem recovery_checkpoint_pair_atomic (ops : List StoreOp) (m c : Nat)
    (h : (applyStoreOps initStore ops).recoveryState = some (m, c)) :
    StoreOp.setRecoveryState m c ∈ ops := by
  rcases applyStoreOps_recoveryState_mem ops initStore m c h with hm | hs
  · exact hm
  · simp [initStore] at hs

/-- C10 witness: in a concrete write sequence the reachable recovery
state (3, 4) is traced back to its atomic pair write. -/
theorem recovery_checkpoint_pair_atomic_witness :
    StoreOp.setRecoveryState 3 4 ∈
      [StoreOp.putNote 1 2 0, StoreOp.setRecoveryState 3 4,
       StoreOp.setRecoveryFinalized false] :=
  recovery_checkpoint_pair_atomic
    [StoreOp.putNote 1 2 0, StoreOp.setRecoveryState 3 4,
     StoreOp.setRecoveryFinalized false] 3 4 (by decide)

/-- C9 counterexample: with a store that was never initialized (the
`is_initialized` check is false everywhere) but whose backing database
handle cannot be created, `open_inner` returns an error even though
loading the client secret and opening the client never fail — refuting
the claim that such an open returns success with no client and that an
error can only come from secret loading or client opening. -/
theorem open_uninitialized_claim_counterexample :
    openInner (Except.error "indexeddb unavailable") (fun _ => false)
      (fun _ => Except.ok 0) (fun _ => Except.ok 0) (fun _ _ => Except.ok 0)
      = Except.error "indexeddb unavailable" :=
  rfl

/-- C9 (amended): provided the backing database handle is created
successfully, opening a client whose store has never been initialized
returns success with no client (`Except.ok none`); and `open_inner`
returns an error only when creating the database handle, loading the
client secret, constructing the client builder, or opening the
initialized client fails. -/
theorem open_error_sources (newDb : Except String Nat) (isInit : Nat → Bool)
    (loadSecret : Nat → Except String Nat)
    (clientBuilder : Nat → Except String Nat)
    (openClient : Nat → Nat → Except String Nat) :
    (∀ db, newDb = Except.ok db → isInit db = false →
        openInner newDb isInit loadSecret clientBuilder openClient
          = Except.ok none) ∧
    (∀ e, openInner newDb isInit loadSecret clientBuilder openClient
          = Except.error e →
        newDb = Except.error e ∨
        ∃ db, newDb = Except.ok db ∧
          (loadSecret db = Except.error e ∨ clientBuilder db = Except.error e ∨
           ∃ s b, loadSecret db = Except.ok s ∧ clientBuilder db = Except.ok b ∧
             openClient b s = Except.error e)) := by
  constructor
  · intro db hdb hinit
    rw [hdb]
    simp [openInner, hinit]
  · intro e h
    cases hdb : newDb with
    | error e2 =>
        rw [hdb] at h
        simp only [openInner] at h
        left
        injection h with he
        exact congrArg Except.error he
    | ok db =>
        rw [hdb] at h
        right
        refine ⟨db, rfl, ?_⟩
        by_cases hinit : isInit db = true
        · cases hls : loadSecret db with
          | error e2 =>
              simp only [openInner, hinit, not_true_eq_false, if_false, hls] at h
              injection h with he
              exact Or.inl (congrArg Except.error he)
          | ok s =>
              cases hcb : clientBuilder db with
              | error e2 =>
                  simp only [openInner, hinit, not_true_eq_false, if_false,
                    hls, hcb] at h
                  injection h with he
                  exact Or.inr (Or.inl (congrArg Except.error he))
              | ok b =>
                  cases hoc : openClient b s with
                  | error e2 =>
                      simp only [openInner, hinit, not_true_eq_false, if_false,
                        hls, hcb, hoc] at h
                      injection h with he
                      exact Or.inr (Or.inr
                        ⟨s, b, rfl, rfl, hoc.trans (congrArg Except.error he)⟩)
                  | ok c =>
                      simp [openInner, hinit, hls, hcb, hoc] at h
        · simp [openInner, hinit] at h

/-- C9 witness: the amended property at a concrete uninitialized store
whose database handle is created successfully. -/
theorem open_error_sources_witness :
    openInner (Except.ok 7) (fun _ => false) (fun _ => Except.ok 1)
      (fun _ => Except.ok 2) (fun _ _ => Except.ok 3) = Except.ok none :=
  (open_error_sources (Except.ok 7) (fun _ => false) (fun _ => Except.ok 1)
      (fun _ => Except.ok 2) (fun _ _ => Except.ok 3)).1 7 rfl rfl

/-- C6 counterexample: an invocation naming an unknown module with a
payload that does not parse as JSON still yields exactly one error item,
but that item reports the payload parse failure, not that the module was
not found — refuting the parenthetical of the claim as stated. -/
theorem rpc_unknown_module_claim_counterexample :
    rpc (fun _ => none) demoClient "foo" "method" "not json" =
      ([CallbackMsg.error "invalid json payload", CallbackMsg.endOfStream],
       demoClient) ∧
    CallbackMsg.error "invalid json payload" ≠
      CallbackMsg.error ("module not found: " ++ "foo") := by
  refine ⟨rfl, ?_⟩
  decide

/-- C6 (amended): an unknown module name is fatal only for that single
invocation: for every module name other than "", "ln" and "mint", and
every payload that parses as JSON, the invocation's callback trace is
exactly one error item reporting that the module was not found followed
by the terminal end message, and the client handle is returned unchanged,
so it remains open and usable for subsequent invocations.  (With a
payload that does not parse, the single error item reports the parse
failure instead.) -/
theorem rpc_unknown_module_single_error (parseJson : String → Option String)
    (client : Client) (module method payload p : String)
    (hp : parseJson payload = some p)
    (h1 : module ≠ "") (h2 : module ≠ "ln") (h3 : module ≠ "mint") :
    rpc parseJson client module method payload =
      ([CallbackMsg.error ("module not found: " ++ module),
        CallbackMsg.endOfStream], client) := by
  simp [rpc, rpcInner, hp, h1, h2, h3, wrapItem]

/-- C6 witness: the amended property at a concrete unknown module name
with a parsing payload. -/
theorem rpc_unknown_module_single_error_witness :
    rpc (fun s => some s) demoClient "foo" "method" "x" =
      ([CallbackMsg.error ("module not found: " ++ "foo"),
        CallbackMsg.endOfStream], demoClient) :=
  rpc_unknown_module_single_error (fun s => some s) demoClient "foo" "method"
    "x" "x" rfl (by decide) (by decide) (by decide)

/-- A wrapped stream item is never the terminal end message. -/
lemma wrapItem_ne_end : ∀ x, wrapItem x ≠ CallbackMsg.endOfStream := by
  intro x
  cases x <;> simp [wrapItem]

/-- C7: for every rpc invocation that runs to completion without
cancellation, after all stream items have been delivered to the callback
(each wrapped as a data or error item), exactly one terminal end message
is delivered; it is the last callback invocation, no delivered item
before it is the end message, and the end message is distinct from every
data and error item. -/
theorem rpc_single_terminal_marker (parseJson : String → Option String)
    (client : Client) (module method payload : String) :
    countEndMarkers (rpc parseJson client module method payload).1 = 1 ∧
    ((rpc parseJson client module method payload).1).getLast?
      = some CallbackMsg.endOfStream ∧
    (∀ m, m ∈ ((rpc parseJson client module method payload).1).dropLast →
        m ≠ CallbackMsg.endOfStream) ∧
    (∀ v, CallbackMsg.data v ≠ CallbackMsg.endOfStream) ∧
    (∀ e, CallbackMsg.error e ≠ CallbackMsg.endOfStream) := by
  refine ⟨?_, ?_, ?_, by simp, by simp⟩
  · unfold countEndMarkers rpc
    rw [List.countP_append]
    have h0 : ((rpcInner parseJson client module method payload).map
        wrapItem).countP (fun m => m == CallbackMsg.endOfStream) = 0 := by
      rw [List.countP_eq_zero]
      intro a ha
      rcases List.mem_map.mp ha with ⟨x, _, rfl⟩
      simpa using wrapItem_ne_end x
    rw [h0]
    decide
  · unfold rpc
    exact List.getLast?_concat _
  · unfold rpc
    intro m hm
    rw [List.dropLast_concat] at hm
    rcases List.mem_map.mp hm with ⟨x, _, rfl⟩
    exact wrapItem_ne_end x

/-- C7 witness: in a concrete completed invocation, the data item
delivered before the end message is not the end message. -/
theorem rpc_single_terminal_marker_witness :
    CallbackMsg.data "x" ≠ CallbackMsg.endOfStream :=
  (rpc_single_terminal_marker (fun s => some s) demoClient "" "m" "x").2.2.1
    (CallbackMsg.data "x") (by decide)

/-- A key that fails the presence check occurs zero times in the ledger. -/
lemma countKey_zero_of_not_present (k : NoteKey) (l : List (NoteKey × Nat))
    (h : l.any (fun e => e.1 == k) = false) : countKey k l = 0 := by
  unfold countKey
  rw [List.countP_eq_zero]
  intro a ha hpa
  have h2 : l.any (fun e => e.1 == k) = true :=
    List.any_eq_true.mpr ⟨a, ha, hpa⟩
  rw [h] at h2
  exact Bool.false_ne_true h2

/-- One `record_note` preserves per-key multiplicity at most one. -/
lemma countKey_applyRecord (k : NoteKey) (kv : NoteKey × Nat)
    (l : List (NoteKey × Nat)) (h : countKey k l ≤ 1) :
    countKey k (applyRecord l kv) ≤ 1 := by
  unfold applyRecord
  by_cases hp : l.any (fun e => e.1 == kv.1) = true
  · rw [if_pos hp]
    exact h
  · rw [if_neg hp]
    have hfalse : l.any (fun e => e.1 == kv.1) = false := by
      cases hb : l.any (fun e => e.1 == kv.1)
      · rfl
      · exact absurd hb hp
    unfold countKey at h ⊢
    rw [List.countP_append, List.countP_cons, List.countP_nil]
    by_cases hk : (kv.1 == k) = true
    · have hk2 : kv.1 = k := eq_of_beq hk
      have h0 : l.countP (fun e => e.1 == k) = 0 := by
        rw [List.countP_eq_zero]
        intro a ha hpa
        have h2 : l.any (fun e => e.1 == kv.1) = true :=
          List.any_eq_true.mpr ⟨a, ha, by rw [hk2]; exact hpa⟩
        rw [hfalse] at h2
        exact Bool.false_ne_true h2
      rw [h0, if_pos hk]
    · rw [if_neg hk]
      omega

/-- After inserting a note, its key passes the presence check. -/
lemma applyRecord_present (k : NoteKey) (v : Nat) (l : List (NoteKey × Nat)) :
    (applyRecord l (k, v)).any (fun e => e.1 == k) = true := by
  unfold applyRecord
  by_cases hp : l.any (fun e => e.1 == (k, v).1) = true
  · rw [if_pos hp]
    exact hp
  · rw [if_neg hp]
    rw [List.any_eq_true]
    exact ⟨(k, v), List.mem_append_right _ (List.mem_singleton_self _), by simp⟩

/-- `record_note` sequences keep per-key multiplicity at most one. -/
lemma recordAll_unique_aux :
    ∀ (notes l : List (NoteKey × Nat)) (k : NoteKey),
      countKey k l ≤ 1 → countKey k (notes.foldl applyRecord l) ≤ 1 := by
  intro notes
  induction notes with
  | nil => intro l k h; exact h
  | cons kv rest ih =>
      intro l k h
      exact ih (applyRecord l kv) k (countKey_applyRecord k kv l h)

/-- C1: `record_note` is idempotent and the ledger keeps (amount, nonce)
pairs unique: inserting a note whose key is already present is a no-op
returning success (not an error), inserting a note and inserting it again
leaves the ledger of the first insert unchanged, and after any sequence
of `record_note` calls from the empty ledger there is at most one ledger
entry per (amount, nonce) pair. -/
theorem record_note_idempotent_unique :
    (∀ (k : NoteKey) (v : Nat) (l : List (NoteKey × Nat)),
        l.any (fun e => e.1 == k) = true → recordNote k v l = Except.ok l) ∧
    (∀ (k : NoteKey) (v : Nat) (l : List (NoteKey × Nat)),
        recordNote k v (applyRecord l (k, v))
          = Except.ok (applyRecord l (k, v))) ∧
    (∀ (notes : List (NoteKey × Nat)) (k : NoteKey),
        countKey k (recordAll notes) ≤ 1) := by
  refine ⟨?_, ?_, ?_⟩
  · intro k v l h
    unfold recordNote applyRecord
    rw [if_pos h]
  · intro k v l
    have hp := applyRecord_present k v l
    unfold recordNote
    set l2 := applyRecord l (k, v) with hl2
    have hp2 : (l2.any fun e => e.1 == (k, v).1) = true := hp
    unfold applyRecord
    rw [if_pos hp2]
  · intro notes k
    exact recordAll_unique_aux notes [] k (by simp [countKey])

/-- C1 witness: recording an already-present (amount, nonce) pair on a
concrete ledger is a no-op returning success. -/
theorem record_note_idempotent_unique_witness :
    recordNote ⟨2, 5⟩ 9 [(⟨2, 5⟩, 9)] = Except.ok [(⟨2, 5⟩, 9)] :=
  record_note_idempotent_unique.1 ⟨2, 5⟩ 9 [(⟨2, 5⟩, 9)] (by decide)

/-- Membership in the cancellation set after one marker write. -/
lemma markOob_cancelled_mem (o q : Nat) (st : OobSt) :
    q ∈ (markOobCancelled o st).cancelled ↔ (q = o ∨ q ∈ st.cancelled) := by
  unfold markOobCancelled
  by_cases ho : o ∈ st.cancelled
  · rw [if_pos ho]
    constructor
    · exact Or.inr
    · rintro (rfl | hq)
      · exact ho
      · exact hq
  · rw [if_neg ho]
    simp [List.mem_cons]

/-- The notification-count invariant is preserved by one marker write. -/
lemma markOob_invariant (o : Nat) (st : OobSt)
    (h : ∀ q, occCount q st.notified = if q ∈ st.cancelled then 1 else 0) :
    ∀ q, occCount q (markOobCancelled o st).notified =
      if q ∈ (markOobCancelled o st).cancelled then 1 else 0 := by
  intro q
  unfold markOobCancelled
  by_cases ho : o ∈ st.cancelled
  · rw [if_pos ho]
    exact h q
  · rw [if_neg ho]
    unfold occCount at h ⊢
    rw [List.countP_cons]
    by_cases hq : q = o
    · rw [hq]
      have h0 := h o
      rw [if_neg ho] at h0
      rw [h0]
      simp
    · have hne : (o == q) = false := by
        rw [beq_eq_false_iff_ne]
        exact fun hh => hq hh.symm
      by_cases hc : q ∈ st.cancelled
      · simp [hne, h q, hc, List.mem_cons]
      · simp [hne, h q, hc, List.mem_cons, hq]

/-- Notification counts over a whole `mark_oob_cancelled` sequence. -/
lemma markAll_notified_count :
    ∀ (ops : List Nat) (st : OobSt),
      (∀ q, occCount q st.notified = if q ∈ st.cancelled then 1 else 0) →
      ∀ op, occCount op (markAll ops st).notified =
        if op ∈ ops ∨ op ∈ st.cancelled then 1 else 0 := by
  intro ops
  induction ops with
  | nil =>
      intro st hinv op
      simpa [markAll] using hinv op
  | cons o rest ih =>
      intro st hinv op
      have h2 := ih (markOobCancelled o st) (markOob_invariant o st hinv) op
      have hm : markAll (o :: rest) st = markAll rest (markOobCancelled o st) :=
        rfl
      rw [hm, h2]
      by_cases ha : op = o <;> by_cases hb : op ∈ rest <;>
        by_cases hc : op ∈ st.cancelled <;>
        simp [markOob_cancelled_mem, List.mem_cons, ha, hb, hc]

/-- C4: `mark_oob_cancelled` is idempotent, and for every operation
identifier a subscriber to its cancellation marker receives exactly one
change notification — one on the first write of the marker and none on
any repeated write — regardless of how many times the call is repeated
in the sequence. -/
theorem mark_oob_cancelled_idempotent_single_notify :
    (∀ (op : Nat) (st : OobSt),
        markOobCancelled op (markOobCancelled op st) = markOobCancelled op st) ∧
    (∀ (calls : List Nat) (op : Nat),
        occCount op (markAll calls emptyOob).notified =
          if op ∈ calls then 1 else 0) := by
  constructor
  · intro op st
    by_cases ho : op ∈ st.cancelled
    · have h1 : markOobCancelled op st = st := by
        unfold markOobCancelled
        rw [if_pos ho]
      rw [h1]
      exact h1
    · have h1 : markOobCancelled op st
          = ⟨op :: st.cancelled, op :: st.notified⟩ := by
        unfold markOobCancelled
        rw [if_neg ho]
      rw [h1]
      unfold markOobCancelled
      rw [if_pos (List.mem_cons_self _ _)]
  · intro calls op
    have h := markAll_notified_count calls emptyOob
      (by intro q; simp [emptyOob, occCount]) op
    simpa [emptyOob] using h

/-- Concatenation stays append-only. -/
lemma appendOnly_trans {a b c : List (Nat × Nat)} (h1 : appendOnly a b)
    (h2 : appendOnly b c) : appendOnly a c := by
  rcases h1 with ⟨t1, rfl⟩
  rcases h2 with ⟨t2, rfl⟩
  exact ⟨t1 ++ t2, List.append_assoc _ _ _⟩

/-- Append-only growth preserves membership. -/
lemma appendOnly_mem {a b : List (Nat × Nat)} (h : appendOnly a b) {x : Nat × Nat}
    (hx : x ∈ a) : x ∈ b := by
  rcases h with ⟨t, rfl⟩
  exact List.mem_append_left _ hx

/-- No single allocator or ledger operation deletes a reused-index marker. -/
lemma applyAllocOp_appendOnly (st : AllocSt) (op : AllocOp) :
    appendOnly st.reused (applyAllocOp st op).reused := by
  cases op with
  | reserveIdx d => exact ⟨[], (List.append_nil _).symm⟩
  | abandonIdx d i => exact ⟨[(d, i)], rfl⟩
  | recordN d n => exact ⟨[], (List.append_nil _).symm⟩
  | removeN d n => exact ⟨[], (List.append_nil _).symm⟩

/-- No sequence of operations deletes a reused-index marker. -/
lemma applyAllocOps_appendOnly :
    ∀ (ops : List AllocOp) (st : AllocSt),
      appendOnly st.reused (applyAllocOps st ops).reused := by
  intro ops
  induction ops with
  | nil => intro st; exact ⟨[], (List.append_nil _).symm⟩
  | cons op rest ih =>
      intro st
      exact appendOnly_trans (applyAllocOp_appendOnly st op)
        (ih (applyAllocOp st op))

/-- C5: reused-index markers are append-only per (amount tier, index):
abandoning an index records a marker identified by that amount tier and
index, no single operation and no sequence of operations ever deletes a
marker, and every abandoned index in a run remains observable in the
final state, so recovery can always see every deliberately skipped
index. -/
theorem reused_index_markers_append_only :
    (∀ (st : AllocSt) (d i : Nat),
        (d, i) ∈ (applyAllocOp st (AllocOp.abandonIdx d i)).reused) ∧
    (∀ (st : AllocSt) (op : AllocOp),
        appendOnly st.reused (applyAllocOp st op).reused) ∧
    (∀ (st : AllocSt) (ops : List AllocOp),
        appendOnly st.reused (applyAllocOps st ops).reused) ∧
    (∀ (st : AllocSt) (ops : List AllocOp) (d i : Nat),
        AllocOp.abandonIdx d i ∈ ops →
        (d, i) ∈ (applyAllocOps st ops).reused) := by
  refine ⟨?_, applyAllocOp_appendOnly,
    fun st ops => applyAllocOps_appendOnly ops st, ?_⟩
  · intro st d i
    exact List.mem_append_right _ (List.mem_singleton_self _)
  · intro st ops
    induction ops generalizing st with
    | nil =>
        intro d i h
        simp at h
    | cons op rest ih =>
        intro d i h
        rcases List.mem_cons.mp h with heq | hmem
        · have h1 : (d, i) ∈ (applyAllocOp st op).reused := by
            rw [← heq]
            exact List.mem_append_right _ (List.mem_singleton_self _)
          exact appendOnly_mem
            (applyAllocOps_appendOnly rest (applyAllocOp st op)) h1
        · exact ih (applyAllocOp st op) d i hmem

/-- C5 witness: a concrete abandoned index survives later operations and
is observable in the final reused-marker list. -/
theorem reused_index_markers_append_only_witness :
    (2, 7) ∈ (applyAllocOps ⟨[], [], []⟩
        [AllocOp.reserveIdx 2, AllocOp.abandonIdx 2 7,
         AllocOp.recordN 2 9]).reused :=
  reused_index_markers_append_only.2.2.2 ⟨[], [], []⟩
    [AllocOp.reserveIdx 2, AllocOp.abandonIdx 2 7, AllocOp.recordN 2 9]
    2 7 (by decide)

/-- Replaying the history produced by a direct run, starting recovery in
the same state the direct run started in, reproduces the direct run's
final state: client entries match the expected nonce sequence exactly,
and foreign entries (whose nonces lie outside the client's derived
sequence) never match. -/
lemma runRecovery_runDirect (derive : Nat → Nat → Nat → Nat) (s : Nat) :
    ∀ (ops : List IssuanceOp) (st : WalletSt),
      (∀ d n, IssuanceOp.foreign d n ∈ ops → ∀ i, n ≠ derive s d i) →
      runRecovery derive s st (runDirect derive s st ops).2
        = (runDirect derive s st ops).1 := by
  intro ops
  induction ops with
  | nil => intro st h; rfl
  | cons op rest ih =>
      intro st h
      cases op with
      | clientIssue d =>
          have h1 : runRecovery derive s st
              (runDirect derive s st (IssuanceOp.clientIssue d :: rest)).2
              = runRecovery derive s
                  (recoverStep derive s st (d, derive s d (getCtr st.counters d)))
                  (runDirect derive s
                    ⟨setCtr st.counters d (getCtr st.counters d + 1),
                     applyRecord st.ledger
                       (⟨d, derive s d (getCtr st.counters d)⟩, 0)⟩ rest).2 := rfl
          have h2 : (runDirect derive s st (IssuanceOp.clientIssue d :: rest)).1
              = (runDirect derive s
                  ⟨setCtr st.counters d (getCtr st.counters d + 1),
                   applyRecord st.ledger
                     (⟨d, derive s d (getCtr st.counters d)⟩, 0)⟩ rest).1 := rfl
          have hstep : recoverStep derive s st
              (d, derive s d (getCtr st.counters d))
              = ⟨setCtr st.counters d (getCtr st.counters d + 1),
                 applyRecord st.ledger
                   (⟨d, derive s d (getCtr st.counters d)⟩, 0)⟩ := by
            unfold recoverStep
            rw [if_pos rfl]
          rw [h1, h2, hstep]
          exact ih _ (fun d2 n2 hm i => h d2 n2 (List.mem_cons_of_mem _ hm) i)
      | foreign d n =>
          have h1 : runRecovery derive s st
              (runDirect derive s st (IssuanceOp.foreign d n :: rest)).2
              = runRecovery derive s (recoverStep derive s st (d, n))
                  (runDirect derive s st rest).2 := rfl
          have h2 : (runDirect derive s st (IssuanceOp.foreign d n :: rest)).1
              = (runDirect derive s st rest).1 := rfl
          have hstep : recoverStep derive s st (d, n) = st := by
            unfold recoverStep
            rw [if_neg (h d n (List.mem_cons_self _ _) (getCtr st.counters d))]
          rw [h1, h2, hstep]
          exact ih st (fun d2 n2 hm i => h d2 n2 (List.mem_cons_of_mem _ hm) i)

/-- C2: for every fixed root secret and nonce-derivation capability, and
every complete history log produced by a run of normal operation (the
client's own issuances interleaved with foreign entries whose nonces lie
outside the client's derived sequence), running the Recovery Engine from
empty state over the whole log — processing the final entry is
finalization — produces, for every denomination, exactly the same ledger
notes as direct issuance produced, and identical Index Allocator
counters. -/
theorem recovery_reproduces_direct_issuance (derive : Nat → Nat → Nat → Nat)
    (s : Nat) (ops : List IssuanceOp)
    (hforeign : ∀ d n, IssuanceOp.foreign d n ∈ ops → ∀ i, n ≠ derive s d i) :
    (∀ d, notesForDenom d
        (runRecovery derive s emptyWallet
          (runDirect derive s emptyWallet ops).2).ledger
      = notesForDenom d ((runDirect derive s emptyWallet ops).1).ledger) ∧
    (runRecovery derive s emptyWallet
        (runDirect derive s emptyWallet ops).2).counters
      = ((runDirect derive s emptyWallet ops).1).counters := by
  have h := runRecovery_runDirect derive s ops emptyWallet hforeign
  rw [h]
  exact ⟨fun d => rfl, rfl⟩

/-- C2 witness: the refinement at a concrete root secret, an even-valued
derivation, and a trace of two client issuances around a foreign entry
with an odd nonce. -/
theorem recovery_reproduces_direct_issuance_witness :
    (∀ d, notesForDenom d
        (runRecovery demoDerive 5 emptyWallet
          (runDirect demoDerive 5 emptyWallet demoOps).2).ledger
      = notesForDenom d
          ((runDirect demoDerive 5 emptyWallet demoOps).1).ledger) ∧
    (runRecovery demoDerive 5 emptyWallet
        (runDirect demoDerive 5 emptyWallet demoOps).2).counters
      = ((runDirect demoDerive 5 emptyWallet demoOps).1).counters :=
  recovery_reproduces_direct_issuance demoDerive 5 demoOps (by
    intro d n hm i
    simp [demoOps] at hm
    obtain ⟨hd, hn⟩ := hm
    rw [hd, hn]
    simp only [demoDerive]
    omega)

end Fedimint
